import Mathlib

/-!
Verification of `git-release-helper` (Python).

Shallow embedding of the pure computational core of the tool:

* `cli.py`: tag-name generation (`generate_tag_name`), last-tag lookup
  (`find_last_tag`), ticket extraction (`extract_tickets_from_commits`),
  release-message rendering (`generate_release_message`), and the control
  flow of the `release` command;
* `config.py`: the merge of local over global configuration in `load_config`;
* `connectors/jira.py`: `validate_connection` and `get_ticket_details`.

Python strings are modelled as `List Char` (`Str`) where character-level
reasoning is needed, and as Lean `String` where values are opaque atoms.
Python `str.replace` is `pyReplace`; the fragment of Python `re` exercised
by tag formats (literals, `.`, `+`, and the injected `(\d+)` capture
group) is given by `parsePattern`/`reMatch`, a backtracking matcher with
the same greedy-with-backtracking semantics as CPython's `re` on that
fragment.  Network and filesystem effects are passed in as explicit
function arguments.
-/

namespace GitReleaseHelper

/-- Python strings at character level. -/
abbrev Str := List Char

/-! ### Python string primitives -/

/-- Python's `<=` on strings: lexicographic comparison by code point. -/
def lexLe (a b : Str) : Bool :=
  match a, b with
  | [], _ => true
  | _ :: _, [] => false
  | x :: xs, y :: ys => if x < y then true else if y < x then false else lexLe xs ys

/-- Python `str.strip()` with no argument: remove leading and trailing
whitespace. -/
def pyStrip (s : Str) : Str :=
  ((s.dropWhile Char.isWhitespace).reverse.dropWhile Char.isWhitespace).reverse

/-- Python `hay.replace(n, r)`: replace every occurrence of `n` in `hay`
by `r`, scanning left to right, never rescanning replacement text.
(The code never calls `replace` with an empty needle; for `n = []` this
returns the haystack unchanged.) -/
def pyReplace (n r : Str) : Str → Str
  | [] => []
  | x :: xs =>
    if h : n ≠ [] ∧ n.isPrefixOf (x :: xs) then
      r ++ pyReplace n r ((x :: xs).drop n.length)
    else
      x :: pyReplace n r xs
termination_by s => s.length
decreasing_by
  · simp only [List.length_drop, List.length_cons]
    cases n with
    | nil => exact absurd rfl h.1
    | cons a as => simp; omega
  · simp

/-- Python `n in s` for a substring `n`: some occurrence of `n` in `s`. -/
def occursIn (n : Str) : Str → Bool
  | [] => decide (n = [])
  | x :: xs => n.isPrefixOf (x :: xs) || occursIn n xs

/-! ### Tag-name generation (`cli.py`, `generate_tag_name`)

`generate_tag_name` substitutes the date placeholders into the configured
tag format, turns the result into a regular expression by the plain
string replacement `tag_base.replace("N", r"(\d+)")` (no `re.escape`),
matches it against every existing tag name with `re.match` (anchored at
the start only), and substitutes one plus the maximal captured integer
(or 1) for every `N` of the base. -/

/-- Tokens of the regex fragment generated by tag formats: literal
characters, `.`, a `+` quantifier on either, and the injected capturing
group `(\d+)`. -/
inductive RTok where
  | lit (c : Char)
  | dot
  | litPlus (c : Char)
  | dotPlus
  | group
deriving DecidableEq

/-- Characters with a regex meaning our matcher does not cover (beyond
`.` and `+`, which it does).  A pattern containing one of these falls
outside the modelled fragment of Python `re`. -/
def isMeta (c : Char) : Bool :=
  c ∈ ['(', ')', '[', ']', '\\', '|', '^', '$', '*', '?', '+', Char.ofNat 123, Char.ofNat 125]

/-- Parse the pattern string produced by `generate_tag_name` into matcher
tokens; `none` for patterns outside the modelled fragment. -/
def parsePattern : Str → Option (List RTok)
  | [] => some []
  | '(' :: '\\' :: 'd' :: '+' :: ')' :: '+' :: _ => none
  | '(' :: '\\' :: 'd' :: '+' :: ')' :: rest => (parsePattern rest).map (fun ts => .group :: ts)
  | '.' :: '+' :: rest => (parsePattern rest).map (fun ts => .dotPlus :: ts)
  | '.' :: rest => (parsePattern rest).map (fun ts => .dot :: ts)
  | c :: '+' :: rest =>
      if isMeta c then none else (parsePattern rest).map (fun ts => .litPlus c :: ts)
  | c :: rest => if isMeta c then none else (parsePattern rest).map (fun ts => .lit c :: ts)

mutual

/-- `re.match` on the modelled fragment: try to match the tokens against
a prefix of the input, greedy with backtracking exactly as CPython's
`re`; returns the list of group captures on success. -/
def reMatch : List RTok → Str → Option (List Str)
  | [], _ => some []
  | .lit c :: ps, x :: xs => if x = c then reMatch ps xs else none
  | .lit _ :: _, [] => none
  | .dot :: ps, x :: xs => if x = '\n' then none else reMatch ps xs
  | .dot :: _, [] => none
  | .litPlus c :: ps, x :: xs =>
      if x = c then (reMatch (.litPlus c :: ps) xs).orElse (fun _ => reMatch ps xs) else none
  | .litPlus _ :: _, [] => none
  | .dotPlus :: ps, x :: xs =>
      if x = '\n' then none else (reMatch (.dotPlus :: ps) xs).orElse (fun _ => reMatch ps xs)
  | .dotPlus :: _, [] => none
  | .group :: ps, x :: xs => if x.isDigit then reMatchG [x] ps xs else none
  | .group :: _, [] => none
termination_by ps s => 2 * s.length + ps.length

/-- Greedy matching of the tail of a `(\d+)` group: `acc` holds the
digits consumed so far; prefer consuming further digits, backtracking to
stopping here. -/
def reMatchG (acc : Str) (ps : List RTok) : Str → Option (List Str)
  | x :: xs =>
      if x.isDigit then
        (reMatchG (acc ++ [x]) ps xs).orElse
          (fun _ => (reMatch ps (x :: xs)).map (fun cs => acc :: cs))
      else (reMatch ps (x :: xs)).map (fun cs => acc :: cs)
  | [] => (reMatch ps []).map (fun cs => acc :: cs)
termination_by s => 2 * s.length + ps.length + 1

end

/-- Python `int` on a string of decimal digits. -/
def digitsToNat (s : Str) : Nat := s.foldl (fun a c => 10 * a + (c.toNat - 48)) 0

/-- Lines 43-47 of `cli.py`: substitute the date placeholders into the
tag format by whole-string replacement, in the order `YYYY`, `YY`, `MM`,
`DD`. -/
def substDate (fmt yyyy yy mm dd : Str) : Str :=
  pyReplace "DD".data dd
    (pyReplace "MM".data mm (pyReplace "YY".data yy (pyReplace "YYYY".data yyyy fmt)))

/-- Line 50 of `cli.py`: `tag_base.replace("N", r"(\d+)")` — every `N`
becomes a capturing digit group, no other character is escaped. -/
def buildTagPattern (tagBase : Str) : Str :=
  pyReplace "N".data "(\\d+)".data tagBase

/-- The capture `generate_tag_name` extracts from one existing tag name:
`re.match` against the pattern, then `int(match.group(1))`; `none` when
the tag does not match or the pattern has no group (`IndexError`). -/
def tagCapture (toks : List RTok) (tag : String) : Option Nat :=
  (reMatch toks tag.data).bind (fun caps => caps.head?.map digitsToNat)

/-- `generate_tag_name` of `cli.py` (lines 36-70).  The current date is
passed as the four `strftime` fields, the repository's tags as a list of
names.  `none` models a `re.error` from a pattern outside the modelled
fragment. -/
def generate_tag_name (fmt yyyy yy mm dd : String) (tags : List String) : Option String :=
  let tagBase := substDate fmt.data yyyy.data yy.data mm.data dd.data
  match parsePattern (buildTagPattern tagBase) with
  | none => none
  | some toks =>
    let matchingTags := tags.filterMap (fun t => (tagCapture toks t).map (fun n => (t, n)))
    let nextN := if matchingTags.isEmpty then 1
                 else (matchingTags.map Prod.snd).foldr Nat.max 0 + 1
    some (String.mk (pyReplace "N".data (Nat.repr nextN).data tagBase))

/-- Modelled from the spec: the matching rule the spec describes for
`generate_tag_name` — every character of the base other than `N` matches
only literally (as if `re.escape`d) and the whole tag name must match.
Defined for bases with a single `N` placeholder (the spec's scenario
shapes), to be compared against the matcher the code actually builds. -/
def specLiteralCapture (base tag : Str) : Option Nat :=
  let pre := base.takeWhile (· ≠ 'N')
  let rest := base.dropWhile (· ≠ 'N')
  match rest with
  | 'N' :: post =>
    if pre.isPrefixOf tag then
      let tagRest := tag.drop pre.length
      let ds := tagRest.takeWhile Char.isDigit
      let tagPost := tagRest.dropWhile Char.isDigit
      if ds ≠ [] ∧ tagPost = post then some (digitsToNat ds) else none
    else none
  | _ => none

/-! ### Last tag (`cli.py`, `find_last_tag`) -/

/-- `find_last_tag` of `cli.py` (lines 73-83): sort the repository's
tags by the committed date of their commit, descending (Python's sort is
on the key only, so this is `sorted(..., reverse=True)`), and return the
first, or `None` when there are no tags.  A tag is modelled as its name
paired with the committed timestamp of its commit. -/
def find_last_tag (tags : List (String × Int)) : Option String :=
  ((List.insertionSort (fun a b : String × Int => b.2 ≤ a.2) tags).head?).map Prod.fst

/-! ### Ticket extraction (`cli.py`, `extract_tickets_from_commits`) -/

/-- `extract_tickets_from_commits` of `cli.py` (lines 86-96): run the
ticket regex over every commit's stripped message, collect all matches
into a set, and return `sorted(...)` of it.  The compiled pattern's
`findall` is passed as a function. -/
def extract_tickets_from_commits (commits : List Str) (findall : Str → List Str) : List Str :=
  List.insertionSort (fun a b => lexLe a b)
    ((commits.map (fun m => findall (pyStrip m))).flatten.dedup)

/-- `re.findall` for the default ticket pattern `ALLI-[0-9]+`: leftmost,
non-overlapping, greedy. -/
def findallALLI : Str → List Str
  | [] => []
  | x :: xs =>
    if h : "ALLI-".data.isPrefixOf (x :: xs) ∧ ((x :: xs).drop 5).takeWhile Char.isDigit ≠ [] then
      let ds := ((x :: xs).drop 5).takeWhile Char.isDigit
      ("ALLI-".data ++ ds) :: findallALLI (((x :: xs).drop 5).drop ds.length)
    else
      findallALLI xs
termination_by s => s.length
decreasing_by
  · simp only [List.length_drop, List.length_cons]
    omega
  · simp

/-! ### Association lists: Python `dict` -/

/-- Python `d.get(k)` / `d[k]`. -/
def assocLookup {κ α : Type} [DecidableEq κ] : List (κ × α) → κ → Option α
  | [], _ => none
  | (k', v) :: rest, k => if k = k' then some v else assocLookup rest k

/-- Python `d[k] = v`: overwrite in place, else append. -/
def assocSet {κ α : Type} [DecidableEq κ] : List (κ × α) → κ → α → List (κ × α)
  | [], k, v => [(k, v)]
  | (k', v') :: rest, k, v =>
      if k = k' then (k, v) :: rest else (k', v') :: assocSet rest k v

/-- Python `base.update(overlay)`: write every key of `overlay` into
`base`. -/
def dictUpdate {κ α : Type} [DecidableEq κ] (base overlay : List (κ × α)) : List (κ × α) :=
  overlay.foldl (fun b kv => assocSet b kv.1 kv.2) base

/-! ### Release-message rendering (`cli.py`, `generate_release_message`) -/

/-- One ticket's details as built by the Jira connector: a Python dict
with keys `title`, `status`, `url` (a missing key reads as `''` through
`dict.get(k, '')`). -/
structure TicketInfo where
  title : Str
  status : Str
  url : Str
deriving DecidableEq

/-- Lines 114-135 of `cli.py`: the `[TICKETS_LIST]` text.  One `- `-
prefixed line per ticket; with a truthy details dict the line carries
title and status when present; an empty ticket list renders the literal
fallback line. -/
def tickets_list_str (tickets : List Str) (ticket_details : List (Str × TicketInfo)) : Str :=
  if tickets ≠ [] then
    if ticket_details ≠ [] then
      List.intercalate ['\n'] (tickets.map (fun ticket =>
        let info := assocLookup ticket_details ticket
        let title := match info with | some i => i.title | none => []
        let status := match info with | some i => i.status | none => []
        if title ≠ [] ∧ status ≠ [] then
          "- ".data ++ ticket ++ ": ".data ++ title ++ " (".data ++ status ++ ")".data
        else if title ≠ [] then "- ".data ++ ticket ++ ": ".data ++ title
        else "- ".data ++ ticket))
    else List.intercalate ['\n'] (tickets.map (fun ticket => "- ".data ++ ticket))
  else "No tickets found in this release.".data

/-- The per-ticket line as the specification describes it: `- ` then the
identifier, with `: title (status)` when both enrichment fields are
non-empty, `: title` when only the title is, and nothing otherwise. -/
def ticketLine (ticket_details : List (Str × TicketInfo)) (ticket : Str) : Str :=
  let title := match assocLookup ticket_details ticket with | some i => i.title | none => []
  let status := match assocLookup ticket_details ticket with | some i => i.status | none => []
  if title ≠ [] ∧ status ≠ [] then
    "- ".data ++ ticket ++ ": ".data ++ title ++ " (".data ++ status ++ ")".data
  else if title ≠ [] then "- ".data ++ ticket ++ ": ".data ++ title
  else "- ".data ++ ticket

/-- Lines 137-143 of `cli.py`: substitute the three placeholders into the
template, in the order `[PROJECT_NAME]`, `[TAG_NAME]`, `[TICKETS_LIST]`. -/
def render_template (template p t l : Str) : Str :=
  pyReplace "[TICKETS_LIST]".data l
    (pyReplace "[TAG_NAME]".data t (pyReplace "[PROJECT_NAME]".data p template))

/-- `generate_release_message` of `cli.py` (lines 99-143) after the
template text has been read (the template is passed in). -/
def generate_release_message (template : Str) (project_name tag : Str)
    (tickets : List Str) (ticket_details : List (Str × TicketInfo)) : Str :=
  render_template template project_name tag (tickets_list_str tickets ticket_details)

/-- The built-in markdown template (fallback in `cli.py` line 110 and
default file content in `config.py` lines 47-50). -/
def markdown_template : Str :=
  "# Deploying [PROJECT_NAME] `[TAG_NAME]`\n\n## Tickets:\n[TICKETS_LIST]".data

/-- The built-in plain-text template (fallback in `cli.py` line 112 and
default file content in `config.py` lines 55-58). -/
def plain_template : Str :=
  "Deploying [PROJECT_NAME] [TAG_NAME]\n\nTickets:\n[TICKETS_LIST]".data

/-! ### Jira connector (`connectors/jira.py`) -/

/-- Outcome of one `requests.get` against the Jira API: a response with
a status code and the relevant parsed JSON fields, or a raised
`RequestException`/`ValueError`. -/
inductive JiraHttp where
  | resp (status : Nat) (summary : Option Str) (statusName : Option Str)
  | exc (msg : Str)

/-- `JiraConnector.validate_connection` (lines 33-51): false when any of
the three settings is empty, otherwise true iff the `myself` request
returns 200 (`none` models a raised exception). -/
def validate_connection (api_url username api_key : Str) (myself : Option Nat) : Bool :=
  if api_url = [] ∨ username = [] ∨ api_key = [] then false
  else match myself with
    | some code => code == 200
    | none => false

/-- The entry `get_ticket_details` stores for one ticket id (lines
69-95): real fields on a 200 response, placeholder text with status
`Unknown` on any other response, placeholder text with status `Error`
on a raised exception. -/
def jiraEntry (api_url ticket_id : Str) (r : JiraHttp) : TicketInfo :=
  match r with
  | .resp status summary statusName =>
    if status == 200 then
      { title := summary.getD "Unknown".data
        status := statusName.getD "Unknown".data
        url := api_url ++ "/browse/".data ++ ticket_id }
    else
      { title := "Could not fetch ticket details".data
        status := "Unknown".data
        url := api_url ++ "/browse/".data ++ ticket_id }
  | .exc m =>
      { title := "Error fetching ticket: ".data ++ m
        status := "Error".data
        url := api_url ++ "/browse/".data ++ ticket_id }

/-- `JiraConnector.get_ticket_details` (lines 53-97).  The per-issue
HTTP outcomes are passed as `fetch`. -/
def get_ticket_details (api_url username api_key : Str) (myself : Option Nat)
    (fetch : Str → JiraHttp) (ticket_ids : List Str) : List (Str × TicketInfo) :=
  if ticket_ids = [] ∨ validate_connection api_url username api_key myself = false then []
  else ticket_ids.foldl
    (fun result ticket_id => assocSet result ticket_id (jiraEntry api_url ticket_id (fetch ticket_id)))
    []

/-! ### Configuration merge (`config.py`, `load_config` lines 88-102) -/

/-- YAML/Python values as far as the configuration merge observes them. -/
inductive Val where
  | vnull
  | vbool (b : Bool)
  | vint (n : Int)
  | vstr (s : String)
  | vlist (l : List Val)
  | vmap (m : List (String × Val))

/-- Python truthiness of a configuration value. -/
def truthy : Val → Bool
  | .vnull => false
  | .vbool b => b
  | .vint n => n != 0
  | .vstr s => decide (s ≠ "")
  | .vlist l => !l.isEmpty
  | .vmap m => !m.isEmpty

/-- One iteration of the `for connector_name, connector_config in
local_config['connectors'].items()` loop (lines 95-97): a local entry
other than `type` whose name exists in the current `connectors` mapping
has its keys written into the existing sub-mapping. -/
def mergeConnEntry (acc : List (String × Val)) (kv : String × Val) : List (String × Val) :=
  if kv.1 ≠ "type" ∧ (assocLookup acc kv.1).isSome then
    match assocLookup acc kv.1, kv.2 with
    | some (Val.vmap gsub), Val.vmap lsub =>
        assocSet acc kv.1 (Val.vmap (dictUpdate gsub lsub))
    | _, _ => acc
  else acc

/-- Lines 91-92: `if local_config['connectors'].get('type'):` — a truthy
local `type` overwrites the selector. -/
def mergeConnType (gc lc : List (String × Val)) : List (String × Val) :=
  match assocLookup lc "type" with
  | some tv => if truthy tv then assocSet gc "type" tv else gc
  | none => gc

/-- Lines 90-97: the merged `connectors` mapping — a truthy local `type`
overwrites the selector, then each named local connector is merged by
`mergeConnEntry`. -/
def mergeConnectors (gc lc : List (String × Val)) : List (String × Val) :=
  lc.foldl mergeConnEntry (mergeConnType gc lc)

/-- One iteration of the `for key, value in local_config.items()` loop
(lines 100-102): every top-level local key other than `connectors`
overwrites the corresponding key. -/
def mergeTopEntry (acc : List (String × Val)) (kv : String × Val) : List (String × Val) :=
  if kv.1 ≠ "connectors" then assocSet acc kv.1 kv.2 else acc

/-- `load_config` lines 88-102: apply the local configuration on top of
`config` (defaults already updated with the global file).  The
`connectors` sections are merged by `mergeConnectors` when both sides
have one; every other top-level local key overwrites the corresponding
key of `config`.  (On non-mapping values where CPython would raise, the
step is a no-op; those states are unreachable from well-formed YAML
configs.) -/
def merge_local_config (config local_config : List (String × Val)) : List (String × Val) :=
  let config1 :=
    match assocLookup local_config "connectors", assocLookup config "connectors" with
    | some (Val.vmap lc), some (Val.vmap gc) =>
        assocSet config "connectors" (Val.vmap (mergeConnectors gc lc))
    | _, _ => config
  local_config.foldl mergeTopEntry config1

/-! ### The `release` command (`cli.py`, `release` lines 328-410) -/

/-- The repository as the `release` command observes it: tag names with
the committed timestamps of their commits, the full commit-message
history of `HEAD`, the messages of `iter_commits("tag..HEAD")` per tag,
and the timestamp a tag created now would record. -/
structure RepoState where
  tags : List (String × Int)
  commitsAll : List Str
  commitsAfter : String → List Str
  headTs : Int

/-- `validate_branch` (lines 24-33): on a non-default branch and without
`--force`, the run continues only if the user confirms. -/
def validate_branch (current_branch : String) (default_branches : List String)
    (force proceed_answer : Bool) : Bool :=
  if current_branch ∉ default_branches ∧ force = false then proceed_answer else true

/-- `handle_tag` (lines 207-225): without `--tag` use the generated
name; with `--tag` abort (`none`) when the tag already exists, and
`tag_exists` is `False` whenever a tag is returned. -/
def handle_tag (tagNames : List String) (generated : Option String)
    (provided : Option String) : Option (String × Bool) :=
  match provided with
  | none => generated.map (fun t => (t, false))
  | some t => if t ∈ tagNames then none else some (t, false)

/-- `prepare_release` (lines 228-313), reduced to its release-message
result: find the last tag, abort (`none`) when a last tag exists but no
commits follow it, otherwise render the message from the commits in
range — all commits when the repository has no tags at all. -/
def prepare_release (repo : RepoState) (tag : String) (tag_exists : Bool)
    (findall : Str → List Str) (ticket_details : List (Str × TicketInfo))
    (project_name : Str) (template : Str) : Option Str :=
  let last_tag := if tag_exists = false then find_last_tag repo.tags else some tag
  match last_tag with
  | some lt =>
    let commits := repo.commitsAfter lt
    if commits = [] then none
    else some (generate_release_message template project_name tag.data
      (extract_tickets_from_commits commits findall) ticket_details)
  | none =>
    some (generate_release_message template project_name tag.data
      (extract_tickets_from_commits repo.commitsAll findall) ticket_details)

/-- Configuration and connector context of one `release` run. -/
structure ReleaseEnv where
  default_branches : List String
  current_branch : String
  findall : Str → List Str
  project_name : Str
  template : Str
  fmt : String
  yyyy : String
  yy : String
  mm : String
  dd : String
  ticket_details : List (Str × TicketInfo)

/-- The command-line options of `release` that the claims touch. -/
structure ReleaseOpts where
  provided_tag : Option String
  force : Bool

/-- The two interactive confirmations. -/
structure UserAnswers where
  proceed_non_default : Bool
  confirm_create : Bool

/-- How one `release` run ended. -/
inductive ReleaseOutcome where
  | cancelled
  | tagExists
  | errored
  | noCommits
  | declined
  | created
deriving DecidableEq

/-- The tail of `release` after the message is shown (lines 392-400):
create the tag only on the final confirmation. -/
def release_confirm (repo : RepoState) (ans : UserAnswers) (tag : String) :
    ReleaseOutcome × List (String × Int) :=
  if ans.confirm_create then (.created, repo.tags ++ [(tag, repo.headTs)])
  else (.declined, repo.tags)

/-- The `release` command (lines 328-410): branch validation, tag
resolution, release preparation, final confirmation.  Returns how the
run ended together with the repository's tags afterwards. -/
def release_run (env : ReleaseEnv) (repo : RepoState) (opts : ReleaseOpts)
    (ans : UserAnswers) : ReleaseOutcome × List (String × Int) :=
  if validate_branch env.current_branch env.default_branches opts.force
      ans.proceed_non_default = false then
    (.cancelled, repo.tags)
  else
    let tagNames := repo.tags.map Prod.fst
    match handle_tag tagNames
        (generate_tag_name env.fmt env.yyyy env.yy env.mm env.dd tagNames)
        opts.provided_tag with
    | none =>
      if opts.provided_tag.isSome then (.tagExists, repo.tags) else (.errored, repo.tags)
    | some (tag, tag_exists) =>
      match prepare_release repo tag tag_exists env.findall env.ticket_details
          env.project_name env.template with
      | none => (.noCommits, repo.tags)
      | some _msg => release_confirm repo ans tag

/-! ## Helper lemmas -/

theorem lexLe_cons_iff {x y : Char} {xs ys : Str} :
    lexLe (x :: xs) (y :: ys) = true ↔ x < y ∨ (x = y ∧ lexLe xs ys = true) := by
  simp only [lexLe]
  split_ifs with h1 h2
  · simp [h1]
  · have hne : x ≠ y := fun he => absurd h2 (by simp [he])
    simp [h1, hne]
  · have he : x = y := le_antisymm (not_lt.mp h2) (not_lt.mp h1)
    simp [h1, he]

theorem lexLe_total : ∀ a b, lexLe a b = true ∨ lexLe b a = true := by
  intro a
  induction a with
  | nil => intro b; left; rfl
  | cons x xs ih =>
    intro b
    cases b with
    | nil => right; rfl
    | cons y ys =>
      rcases lt_trichotomy x y with h | h | h
      · left; exact lexLe_cons_iff.mpr (Or.inl h)
      · rcases ih ys with h2 | h2
        · left; exact lexLe_cons_iff.mpr (Or.inr ⟨h, h2⟩)
        · right; exact lexLe_cons_iff.mpr (Or.inr ⟨h.symm, h2⟩)
      · right; exact lexLe_cons_iff.mpr (Or.inl h)

theorem lexLe_trans : ∀ a b c, lexLe a b = true → lexLe b c = true → lexLe a c = true := by
  intro a
  induction a with
  | nil => intro b c _ _; rfl
  | cons x xs ih =>
    intro b c hab hbc
    cases b with
    | nil => simp [lexLe] at hab
    | cons y ys =>
      cases c with
      | nil => simp [lexLe] at hbc
      | cons z zs =>
        rcases lexLe_cons_iff.mp hab with h1 | ⟨he1, h1⟩ <;>
          rcases lexLe_cons_iff.mp hbc with h2 | ⟨he2, h2⟩
        · exact lexLe_cons_iff.mpr (Or.inl (lt_trans h1 h2))
        · exact lexLe_cons_iff.mpr (Or.inl (he2 ▸ h1))
        · exact lexLe_cons_iff.mpr (Or.inl (he1 ▸ h2))
        · exact lexLe_cons_iff.mpr (Or.inr ⟨he1.trans he2, ih ys zs h1 h2⟩)

instance : IsTotal Str (fun a b => lexLe a b = true) := ⟨lexLe_total⟩

instance : IsTrans Str (fun a b => lexLe a b = true) := ⟨lexLe_trans⟩

instance : IsTotal (String × Int) (fun a b : String × Int => b.2 ≤ a.2) :=
  ⟨fun a b => le_total b.2 a.2⟩

instance : IsTrans (String × Int) (fun a b : String × Int => b.2 ≤ a.2) :=
  ⟨fun _ _ _ h1 h2 => le_trans h2 h1⟩

theorem isPrefixOf_iff_exists {n s : Str} :
    n.isPrefixOf s = true ↔ ∃ t, s = n ++ t := by
  induction n generalizing s with
  | nil => simp [List.isPrefixOf]
  | cons a as ih =>
    cases s with
    | nil => simp [List.isPrefixOf]
    | cons b bs =>
      simp only [List.isPrefixOf, Bool.and_eq_true, beq_iff_eq, ih, List.cons_append,
        List.cons.injEq]
      constructor
      · rintro ⟨hab, t, ht⟩; exact ⟨t, hab.symm, ht⟩
      · rintro ⟨t, hab, ht⟩; exact ⟨hab.symm, t, ht⟩

theorem occursIn_iff_exists {n s : Str} :
    occursIn n s = true ↔ ∃ p q, s = p ++ n ++ q := by
  induction s with
  | nil =>
    simp only [occursIn, decide_eq_true_eq]
    constructor
    · intro h; exact ⟨[], [], by simp [h]⟩
    · rintro ⟨p, q, hpq⟩
      rcases List.append_eq_nil.mp (List.append_eq_nil.mp hpq.symm).1 with ⟨_, h2⟩
      exact h2
  | cons x xs ih =>
    simp only [occursIn, Bool.or_eq_true, isPrefixOf_iff_exists, ih]
    constructor
    · rintro (⟨t, ht⟩ | ⟨p, q, hpq⟩)
      · exact ⟨[], t, by simp [ht]⟩
      · exact ⟨x :: p, q, by simp [hpq]⟩
    · rintro ⟨p, q, hpq⟩
      cases p with
      | nil => exact Or.inl ⟨q, by simpa using hpq⟩
      | cons y ys =>
        right
        simp only [List.cons_append, List.cons.injEq] at hpq
        exact ⟨ys, q, hpq.2⟩

theorem occursIn_eq_false_of_not_mem {c : Char} {n s : Str}
    (hc : c ∈ n) (hs : c ∉ s) : occursIn n s = false := by
  by_contra h
  rcases occursIn_iff_exists.mp (Bool.not_eq_false _ ▸ h) with ⟨p, q, hpq⟩
  exact hs (hpq ▸ (by simp [hc]))

theorem pyReplace_nil (n r : Str) : pyReplace n r [] = [] := by
  simp [pyReplace]

theorem pyReplace_cons_neg {n r : Str} {x : Char} {xs : Str}
    (h : ¬ n.isPrefixOf (x :: xs) = true) :
    pyReplace n r (x :: xs) = x :: pyReplace n r xs := by
  rw [pyReplace]
  simp [h]

theorem pyReplace_append_self {n : Str} (r z : Str) (hn : n ≠ []) :
    pyReplace n r (n ++ z) = r ++ pyReplace n r z := by
  cases n with
  | nil => exact absurd rfl hn
  | cons a as =>
    rw [List.cons_append, pyReplace]
    have hpre : (a :: as).isPrefixOf (a :: (as ++ z)) = true :=
      isPrefixOf_iff_exists.mpr ⟨z, by simp⟩
    rw [dif_pos ⟨hn, by simpa using hpre⟩]
    congr 1
    simp

theorem pyReplace_append_of_head {c : Char} {n : Str} (r : Str)
    (hc : n.head? = some c) :
    ∀ (x z : Str), c ∉ x → pyReplace n r (x ++ z) = x ++ pyReplace n r z := by
  intro x
  induction x with
  | nil => intro z _; simp
  | cons b bs ih =>
    intro z hb
    have hbc : b ≠ c := fun he => hb (by simp [he])
    have hnp : ¬ n.isPrefixOf (b :: (bs ++ z)) = true := by
      intro hp
      rcases isPrefixOf_iff_exists.mp hp with ⟨t, ht⟩
      cases n with
      | nil => simp at hc
      | cons a as =>
        simp only [List.head?_cons, Option.some.injEq] at hc
        simp only [List.cons_append, List.cons.injEq] at ht
        exact hbc (ht.1.trans hc)
    rw [List.cons_append, pyReplace_cons_neg hnp, ih z (fun hm => hb (by simp [hm]))]
    simp

theorem pyReplace_of_not_occurs {n r s : Str} (h : occursIn n s = false) :
    pyReplace n r s = s := by
  induction s with
  | nil => exact pyReplace_nil n r
  | cons x xs ih =>
    simp only [occursIn, Bool.or_eq_false_iff] at h
    rw [pyReplace_cons_neg (by simp [h.1]), ih h.2]

theorem assocLookup_assocSet_self {κ α : Type} [DecidableEq κ]
    (d : List (κ × α)) (k : κ) (v : α) :
    assocLookup (assocSet d k v) k = some v := by
  induction d with
  | nil => simp [assocSet, assocLookup]
  | cons kv rest ih =>
    by_cases h : k = kv.1
    · simp [assocSet, assocLookup, h]
    · simp [assocSet, assocLookup, h, ih]

theorem assocLookup_assocSet_ne {κ α : Type} [DecidableEq κ]
    (d : List (κ × α)) {k k' : κ} (v : α) (h : k' ≠ k) :
    assocLookup (assocSet d k v) k' = assocLookup d k' := by
  induction d with
  | nil => simp [assocSet, assocLookup, h]
  | cons kv rest ih =>
    by_cases hk : k = kv.1
    · subst hk
      simp [assocSet, assocLookup, h]
    · by_cases hk' : k' = kv.1
      · simp [assocSet, assocLookup, hk, hk']
      · simp [assocSet, assocLookup, hk, hk', ih]

theorem foldl_assocSet_lookup {κ α : Type} [DecidableEq κ] (f : κ → α) :
    ∀ (ids : List κ) (init : List (κ × α)) (x : κ),
      assocLookup (ids.foldl (fun res i => assocSet res i (f i)) init) x
        = if x ∈ ids then some (f x) else assocLookup init x := by
  intro ids
  induction ids with
  | nil => intro init x; simp
  | cons i rest ih =>
    intro init x
    rw [List.foldl_cons, ih]
    by_cases hx : x ∈ rest
    · simp [hx]
    · by_cases hxi : x = i
      · subst hxi
        simp [hx, assocLookup_assocSet_self]
      · simp [hx, hxi, assocLookup_assocSet_ne _ _ hxi]

theorem le_foldr_max (l : List Nat) : ∀ k ∈ l, k ≤ l.foldr Nat.max 0 := by
  induction l with
  | nil => simp
  | cons a rest ih =>
    intro k hk
    rcases List.mem_cons.mp hk with h | h
    · simp [h, List.foldr_cons, Nat.le_max_left]
    · exact le_trans (ih k h) (by simp [List.foldr_cons, Nat.le_max_right])

theorem foldr_max_mem (l : List Nat) (h : l ≠ []) : l.foldr Nat.max 0 ∈ l := by
  induction l with
  | nil => exact absurd rfl h
  | cons a rest ih =>
    rcases List.eq_nil_or_concat rest with hr | _
    · subst hr; simp
    · by_cases hr : rest = []
      · subst hr; simp
      · rw [List.foldr_cons]
        rcases max_choice a (rest.foldr Nat.max 0) with hm | hm
        · simp [hm]
        · simp [hm, ih hr]

theorem orElse_isSome {α : Type} (a : Option α) (f : Unit → Option α) :
    (a.orElse f).isSome = (a.isSome || (f ()).isSome) := by
  cases a <;> simp [Option.orElse]

theorem map_isSome {α β : Type} (f : α → β) (a : Option α) :
    (a.map f).isSome = a.isSome := by
  cases a <;> rfl

theorem map_congr_fn {α β : Type} {f g : α → β} :
    ∀ (l : List α), (∀ a ∈ l, f a = g a) → l.map f = l.map g := by
  intro l
  induction l with
  | nil => intro _; rfl
  | cons a as ih =>
    intro h
    simp only [List.map_cons, h a (List.mem_cons_self a as),
      ih (fun b hb => h b (List.mem_cons_of_mem a hb))]

theorem reMatchG_of_reMatch (acc : Str) (ps : List RTok) (s : Str)
    (h : (reMatch ps s).isSome = true) : (reMatchG acc ps s).isSome = true := by
  cases s with
  | nil => simp [reMatchG, h, Option.isSome_map]
  | cons y ys =>
    rw [reMatchG]
    by_cases hd : y.isDigit
    · simp only [hd, if_true, orElse_isSome, Option.isSome_map]
      simp [h]
    · simp [hd, Option.isSome_map, h]

theorem reMatch_append_isSome_aux : ∀ K : Nat,
    (∀ (toks : List RTok) (xs : Str), 2 * xs.length + toks.length ≤ K → ∀ ys : Str,
       (reMatch toks xs).isSome = true → (reMatch toks (xs ++ ys)).isSome = true)
    ∧ (∀ (acc : Str) (ps : List RTok) (xs : Str), 2 * xs.length + ps.length + 1 ≤ K →
       ∀ ys : Str,
       (reMatchG acc ps xs).isSome = true → (reMatchG acc ps (xs ++ ys)).isSome = true) := by
  intro K
  induction K using Nat.strong_induction_on with
  | _ K ih =>
    constructor
    · intro toks xs hK ys h
      cases toks with
      | nil => simp [reMatch]
      | cons t ps =>
        cases t with
        | lit c =>
          cases xs with
          | nil => simp [reMatch] at h
          | cons x xs' =>
            simp only [reMatch] at h
            by_cases hx : x = c
            · rw [if_pos hx] at h
              simp only [List.cons_append, reMatch, if_pos hx]
              have hlt : 2 * xs'.length + ps.length < K := by
                simp only [List.length_cons] at hK; omega
              exact (ih _ hlt).1 ps xs' (le_refl _) ys h
            · rw [if_neg hx] at h; simp at h
        | dot =>
          cases xs with
          | nil => simp [reMatch] at h
          | cons x xs' =>
            simp only [reMatch] at h
            by_cases hx : x = '\n'
            · rw [if_pos hx] at h; simp at h
            · rw [if_neg hx] at h
              simp only [List.cons_append, reMatch, if_neg hx]
              have hlt : 2 * xs'.length + ps.length < K := by
                simp only [List.length_cons] at hK; omega
              exact (ih _ hlt).1 ps xs' (le_refl _) ys h
        | litPlus c =>
          cases xs with
          | nil => simp [reMatch] at h
          | cons x xs' =>
            simp only [reMatch] at h
            by_cases hx : x = c
            · rw [if_pos hx, orElse_isSome, Bool.or_eq_true] at h
              simp only [List.cons_append, reMatch, if_pos hx, orElse_isSome,
                Bool.or_eq_true]
              have hlt1 : 2 * xs'.length + (ps.length + 1 + 1) ≤ K := by
                simp only [List.length_cons] at hK; omega
              rcases h with h | h
              · left
                have hlt : 2 * xs'.length + (RTok.litPlus c :: ps).length < K := by
                  simp only [List.length_cons] at hK ⊢; omega
                exact (ih _ hlt).1 (RTok.litPlus c :: ps) xs' (le_refl _) ys h
              · right
                have hlt : 2 * xs'.length + ps.length < K := by
                  simp only [List.length_cons] at hK; omega
                exact (ih _ hlt).1 ps xs' (le_refl _) ys h
            · rw [if_neg hx] at h; simp at h
        | dotPlus =>
          cases xs with
          | nil => simp [reMatch] at h
          | cons x xs' =>
            simp only [reMatch] at h
            by_cases hx : x = '\n'
            · rw [if_pos hx] at h; simp at h
            · rw [if_neg hx, orElse_isSome, Bool.or_eq_true] at h
              simp only [List.cons_append, reMatch, if_neg hx, orElse_isSome,
                Bool.or_eq_true]
              rcases h with h | h
              · left
                have hlt : 2 * xs'.length + (RTok.dotPlus :: ps).length < K := by
                  simp only [List.length_cons] at hK ⊢; omega
                exact (ih _ hlt).1 (RTok.dotPlus :: ps) xs' (le_refl _) ys h
              · right
                have hlt : 2 * xs'.length + ps.length < K := by
                  simp only [List.length_cons] at hK; omega
                exact (ih _ hlt).1 ps xs' (le_refl _) ys h
        | group =>
          cases xs with
          | nil => simp [reMatch] at h
          | cons x xs' =>
            simp only [reMatch] at h
            by_cases hd : x.isDigit
            · rw [if_pos hd] at h
              simp only [List.cons_append, reMatch, if_pos hd]
              have hlt : 2 * xs'.length + ps.length + 1 < K := by
                simp only [List.length_cons] at hK; omega
              exact (ih _ hlt).2 [x] ps xs' (le_refl _) ys h
            · rw [if_neg hd] at h; simp at h
    · intro acc ps xs hK ys h
      cases xs with
      | nil =>
        simp only [reMatchG] at h
        rw [map_isSome] at h
        have hlt : 2 * ([] : Str).length + ps.length < K := by
          simp only [List.length_nil] at hK ⊢; omega
        have h2 := (ih _ hlt).1 ps [] (le_refl _) ys h
        simp only [List.nil_append] at h2 ⊢
        exact reMatchG_of_reMatch acc ps ys h2
      | cons x xs' =>
        simp only [reMatchG] at h
        by_cases hd : x.isDigit
        · rw [if_pos hd, orElse_isSome, Bool.or_eq_true] at h
          simp only [List.cons_append, reMatchG, if_pos hd, orElse_isSome,
            Bool.or_eq_true]
          rcases h with h | h
          · left
            have hlt : 2 * xs'.length + ps.length + 1 < K := by
              simp only [List.length_cons] at hK; omega
            exact (ih _ hlt).2 (acc ++ [x]) ps xs' (le_refl _) ys h
          · right
            rw [map_isSome] at h ⊢
            have hlt : 2 * (x :: xs').length + ps.length < K := by
              simp only [List.length_cons] at hK ⊢; omega
            have h2 := (ih _ hlt).1 ps (x :: xs') (le_refl _) ys h
            simpa using h2
        · rw [if_neg hd] at h
          simp only [List.cons_append, reMatchG, if_neg hd]
          rw [map_isSome] at h ⊢
          have hlt : 2 * (x :: xs').length + ps.length < K := by
            simp only [List.length_cons] at hK ⊢; omega
          have h2 := (ih _ hlt).1 ps (x :: xs') (le_refl _) ys h
          simpa using h2

/-- Matching is anchored at the start only: a successful `re.match`
stays successful whatever follows the matched prefix. -/
theorem reMatch_append_isSome (toks : List RTok) (xs ys : Str)
    (h : (reMatch toks xs).isSome = true) : (reMatch toks (xs ++ ys)).isSome = true :=
  (reMatch_append_isSome_aux (2 * xs.length + toks.length)).1 toks xs (le_refl _) ys h

/-! ## Claims -/

/-- C2: for every list of commits and every ticket pattern, ticket
extraction returns the deduplicated, lexicographically (string-wise)
sorted sequence of all matches of the pattern across every commit's
message text; for the cited scenario with pattern `ALLI-[0-9]+` the
result is exactly `["ALLI-12", "ALLI-7"]`. -/
theorem extract_tickets_sorted_dedup :
    (∀ (commits : List Str) (findall : Str → List Str),
      (extract_tickets_from_commits commits findall).Sorted (fun a b => lexLe a b = true)
      ∧ (extract_tickets_from_commits commits findall).Nodup
      ∧ (∀ t, t ∈ extract_tickets_from_commits commits findall
          ↔ ∃ m ∈ commits, t ∈ findall (pyStrip m)))
    ∧ extract_tickets_from_commits
        ["ALLI-12: fix bug".data, "unrelated change".data, "ALLI-7 and ALLI-12 duplicate".data]
        findallALLI
      = ["ALLI-12".data, "ALLI-7".data] := by
  constructor
  · intro commits findall
    refine ⟨List.sorted_insertionSort _ _, ?_, ?_⟩
    · exact ((List.perm_insertionSort _ _).nodup_iff).mpr (List.nodup_dedup _)
    · intro t
      rw [extract_tickets_from_commits, (List.perm_insertionSort _ _).mem_iff,
        List.mem_dedup, List.mem_flatten]
      simp
  · simp +decide [extract_tickets_from_commits, findallALLI, pyStrip]

/-- C3: the rendered ticket list has one `- `-prefixed line per ticket,
with `: title (status)` when both enrichment fields are non-empty,
`: title` when only the title is, and the bare identifier otherwise; an
empty ticket list renders exactly the no-tickets line. -/
theorem tickets_list_rendering :
    ∀ (tickets : List Str) (ticket_details : List (Str × TicketInfo)),
      tickets_list_str tickets ticket_details
        = if tickets = [] then "No tickets found in this release.".data
          else List.intercalate ['\n'] (tickets.map (ticketLine ticket_details)) := by
  intro tickets details
  by_cases ht : tickets = []
  · subst ht; simp [tickets_list_str]
  · rw [if_neg ht]
    by_cases hd : details = []
    · subst hd
      rw [tickets_list_str, if_pos ht, if_neg (by simp)]
      congr 1
    · rw [tickets_list_str, if_pos ht, if_pos hd]
      congr 1

/-- C9: the "last release" reference point is a tag whose commit has the
greatest committed timestamp among all tags, `None` exactly when the
repository has no tags, in which case `prepare_release` scans all
commits reachable from the tip. -/
theorem find_last_tag_max_timestamp :
    (∀ tags : List (String × Int), find_last_tag tags = none ↔ tags = [])
    ∧ (∀ (tags : List (String × Int)) (nm : String), find_last_tag tags = some nm →
        ∃ ts : Int, (nm, ts) ∈ tags ∧ ∀ e ∈ tags, e.2 ≤ ts)
    ∧ (∀ (repo : RepoState) (tag : String) (findall : Str → List Str)
        (ticket_details : List (Str × TicketInfo)) (project_name template : Str),
        repo.tags = [] →
        prepare_release repo tag false findall ticket_details project_name template
          = some (generate_release_message template project_name tag.data
              (extract_tickets_from_commits repo.commitsAll findall) ticket_details)) := by
  refine ⟨?_, ?_, ?_⟩
  · intro tags
    rw [find_last_tag]
    constructor
    · intro h
      have h2 : (List.insertionSort (fun a b : String × Int => b.2 ≤ a.2) tags) = [] := by
        cases hh : List.insertionSort (fun a b : String × Int => b.2 ≤ a.2) tags with
        | nil => rfl
        | cons e rest => rw [hh] at h; simp at h
      have := List.perm_insertionSort (fun a b : String × Int => b.2 ≤ a.2) tags
      rw [h2] at this
      exact this.symm.eq_nil
    · intro h; subst h; rfl
  · intro tags nm h
    rw [find_last_tag] at h
    cases hh : List.insertionSort (fun a b : String × Int => b.2 ≤ a.2) tags with
    | nil => rw [hh] at h; simp at h
    | cons e rest =>
      rw [hh] at h
      have hnm : e.1 = nm := by simpa using h
      have hperm := List.perm_insertionSort (fun a b : String × Int => b.2 ≤ a.2) tags
      have hsorted := List.sorted_insertionSort (fun a b : String × Int => b.2 ≤ a.2) tags
      rw [hh] at hperm hsorted
      refine ⟨e.2, ?_, ?_⟩
      · have he : e ∈ tags := hperm.mem_iff.mp (List.mem_cons_self e rest)
        have h2 : (nm, e.2) = e := by
          rw [← hnm]
        rw [h2]
        exact he
      · intro x hx
        rcases List.mem_cons.mp (hperm.mem_iff.mpr hx) with he | hr
        · rw [he]
        · exact (List.sorted_cons.mp hsorted).1 x hr
  · intro repo tag findall details pname template h
    rw [prepare_release]
    simp [h, find_last_tag]

/-- C9 witness: between a tag at timestamp 5 and one at timestamp 9,
the reference point is the latter. -/
theorem find_last_tag_max_timestamp_witness :
    find_last_tag [("a", (5 : Int)), ("b", 9)] = some "b"
    ∧ ∃ ts : Int, ("b", ts) ∈ [("a", (5 : Int)), ("b", 9)]
        ∧ ∀ e ∈ [("a", (5 : Int)), ("b", 9)], e.2 ≤ ts :=
  ⟨by decide, find_last_tag_max_timestamp.2.1 [("a", (5 : Int)), ("b", 9)] "b" (by decide)⟩

/-- C5: with a non-empty request list, when connection validation
succeeds the Jira lookup returns an entry for every requested
identifier — non-success responses get status `Unknown`, transport
errors get status `Error`, none is omitted — and when validation fails
it returns the empty mapping. -/
theorem get_ticket_details_total_coverage :
    ∀ (api_url username api_key : Str) (myself : Option Nat)
      (fetch : Str → JiraHttp) (ticket_ids : List Str),
      ticket_ids ≠ [] →
      (validate_connection api_url username api_key myself = true →
        (∀ t, (assocLookup (get_ticket_details api_url username api_key myself fetch
                  ticket_ids) t).isSome = true
            ↔ t ∈ ticket_ids)
        ∧ (∀ t, t ∈ ticket_ids →
            assocLookup (get_ticket_details api_url username api_key myself fetch
                ticket_ids) t
              = some (jiraEntry api_url t (fetch t)))
        ∧ (∀ t m, fetch t = JiraHttp.exc m →
            (jiraEntry api_url t (fetch t)).status = "Error".data)
        ∧ (∀ t st s nm, fetch t = JiraHttp.resp st s nm → st ≠ 200 →
            (jiraEntry api_url t (fetch t)).status = "Unknown".data))
      ∧ (validate_connection api_url username api_key myself = false →
          get_ticket_details api_url username api_key myself fetch ticket_ids = []) := by
  intro au un ak my fetch ids hne
  constructor
  · intro hv
    have hfold : ∀ t, assocLookup (get_ticket_details au un ak my fetch ids) t
        = if t ∈ ids then some (jiraEntry au t (fetch t)) else none := by
      intro t
      rw [get_ticket_details, if_neg (by simp [hne, hv])]
      rw [foldl_assocSet_lookup (fun i => jiraEntry au i (fetch i)) ids [] t]
      by_cases h : t ∈ ids <;> simp [h, assocLookup]
    refine ⟨?_, ?_, ?_, ?_⟩
    · intro t; rw [hfold]; by_cases h : t ∈ ids <;> simp [h]
    · intro t ht; rw [hfold, if_pos ht]
    · intro t m hm; simp [jiraEntry, hm]
    · intro t st s nm hm hst; simp [jiraEntry, hm, hst]
  · intro hv
    rw [get_ticket_details, if_pos (by simp [hv])]

/-- C5 witness: one Jira id, validation succeeding, transport error. -/
theorem get_ticket_details_total_coverage_witness :
    ["A-1".data] ≠ ([] : List Str)
    ∧ validate_connection "u".data "n".data "k".data (some 200) = true
    ∧ (assocLookup (get_ticket_details "u".data "n".data "k".data (some 200)
        (fun _ => JiraHttp.exc "boom".data) ["A-1".data]) "A-1".data).isSome = true := by
  refine ⟨by decide, by decide, ?_⟩
  exact (((get_ticket_details_total_coverage "u".data "n".data "k".data (some 200)
      (fun _ => JiraHttp.exc "boom".data) ["A-1".data] (by decide)).1 (by decide)).1
    "A-1".data).mpr (by decide)

/-- C7: a run that is declined on a non-default branch, or aborted
because the requested tag exists, or because no commits follow the last
tag, or because tag creation is declined, leaves the repository's tag
set unchanged. -/
theorem release_aborts_leave_tags_unchanged :
    ∀ (env : ReleaseEnv) (repo : RepoState) (opts : ReleaseOpts) (ans : UserAnswers),
      (validate_branch env.current_branch env.default_branches opts.force
          ans.proceed_non_default = false →
        (release_run env repo opts ans).2 = repo.tags)
      ∧ (∀ t, opts.provided_tag = some t → t ∈ repo.tags.map Prod.fst →
        (release_run env repo opts ans).2 = repo.tags)
      ∧ ((∃ lt, find_last_tag repo.tags = some lt ∧ repo.commitsAfter lt = []) →
        (release_run env repo opts ans).2 = repo.tags)
      ∧ (ans.confirm_create = false →
        (release_run env repo opts ans).2 = repo.tags) := by
  intro env repo opts ans
  refine ⟨?_, ?_, ?_, ?_⟩
  · intro h
    rw [release_run, if_pos h]
  · intro t hp hmem
    rw [release_run]
    by_cases hvb : validate_branch env.current_branch env.default_branches opts.force
        ans.proceed_non_default = false
    · rw [if_pos hvb]
    · rw [if_neg hvb]
      simp [handle_tag, hp, hmem]
  · rintro ⟨lt, hlt, hempty⟩
    rw [release_run]
    by_cases hvb : validate_branch env.current_branch env.default_branches opts.force
        ans.proceed_non_default = false
    · rw [if_pos hvb]
    · rw [if_neg hvb]
      have hprep : ∀ tg : String,
          prepare_release repo tg false env.findall env.ticket_details
            env.project_name env.template = none := by
        intro tg
        rw [prepare_release]
        simp [hlt, hempty]
      cases hpt : opts.provided_tag with
      | none =>
        cases hg : generate_tag_name env.fmt env.yyyy env.yy env.mm env.dd
            (repo.tags.map Prod.fst) with
        | none => simp [handle_tag, hg]
        | some tg => simp [handle_tag, hg, hprep]
      | some t =>
        by_cases hm : t ∈ repo.tags.map Prod.fst
        · simp [handle_tag, hm]
        · simp [handle_tag, hm, hprep]
  · intro h4
    rw [release_run]
    by_cases hvb : validate_branch env.current_branch env.default_branches opts.force
        ans.proceed_non_default = false
    · rw [if_pos hvb]
    · rw [if_neg hvb]
      cases hpt : opts.provided_tag with
      | none =>
        cases hg : generate_tag_name env.fmt env.yyyy env.yy env.mm env.dd
            (repo.tags.map Prod.fst) with
        | none => simp [handle_tag, hg]
        | some tg =>
          simp only [handle_tag, hg, Option.map_some']
          cases hprep : prepare_release repo tg false env.findall env.ticket_details
              env.project_name env.template with
          | none => simp [hprep]
          | some msg => simp [hprep, release_confirm, h4]
      | some t =>
        by_cases hm : t ∈ repo.tags.map Prod.fst
        · simp [handle_tag, hm]
        · simp only [handle_tag, hm, if_neg]
          cases hprep : prepare_release repo t false env.findall env.ticket_details
              env.project_name env.template with
          | none => simp [hm, hprep]
          | some msg => simp [hm, hprep, release_confirm, h4]

/-- C7 witness: a concrete run with the final confirmation declined. -/
theorem release_aborts_leave_tags_unchanged_witness :
    (release_run
        ⟨["main"], "main", fun _ => [], [], [], "N", "2024", "24", "01", "01", []⟩
        ⟨[], [], fun _ => [], 0⟩ ⟨none, false⟩ ⟨true, false⟩).2
      = ([] : List (String × Int)) :=
  (release_aborts_leave_tags_unchanged
      ⟨["main"], "main", fun _ => [], [], [], "N", "2024", "24", "01", "01", []⟩
      ⟨[], [], fun _ => [], 0⟩ ⟨none, false⟩ ⟨true, false⟩).2.2.2 rfl

theorem filterMap_pair_map_snd {α : Type} (f : String → Option α) :
    ∀ tags : List String,
      (tags.filterMap (fun t => (f t).map (fun n => (t, n)))).map Prod.snd
        = tags.filterMap f := by
  intro tags
  induction tags with
  | nil => rfl
  | cons t rest ih =>
    cases hf : f t with
    | none => simp [List.filterMap_cons, hf, ih]
    | some n => simp [List.filterMap_cons, hf, ih]

/-- C1 (amended): the integer substituted for `N` equals one plus the
maximum integer captured by the pattern the code actually builds
(unescaped, start-anchored), or 1 when no existing tag matches it; in
the cited scenario the result `20240101.3` is indeed absent from the
existing set.  (As the counterexample shows, the result is not in
general absent from the existing set.) -/
theorem generate_tag_name_next_number :
    (∀ (fmt yyyy yy mm dd : String) (tags : List String) (toks : List RTok),
      parsePattern (buildTagPattern
          (substDate fmt.data yyyy.data yy.data mm.data dd.data)) = some toks →
      ∃ n : Nat,
        generate_tag_name fmt yyyy yy mm dd tags
          = some (String.mk (pyReplace "N".data (Nat.repr n).data
              (substDate fmt.data yyyy.data yy.data mm.data dd.data)))
        ∧ 1 ≤ n
        ∧ (∀ k ∈ tags.filterMap (tagCapture toks), k < n)
        ∧ (tags.filterMap (tagCapture toks) = [] → n = 1)
        ∧ (tags.filterMap (tagCapture toks) ≠ [] →
            n - 1 ∈ tags.filterMap (tagCapture toks)))
    ∧ generate_tag_name "YYYYMMDD.N" "2024" "24" "01" "01" ["20240101.1", "20240101.2"]
        = some "20240101.3"
    ∧ "20240101.3" ∉ (["20240101.1", "20240101.2"] : List String) := by
  refine ⟨?_, ?_, by decide⟩
  · intro fmt yyyy yy mm dd tags toks hp
    simp only [generate_tag_name, hp]
    have hsnd := filterMap_pair_map_snd (tagCapture toks) tags
    by_cases hc : tags.filterMap (tagCapture toks) = []
    · have hmt : tags.filterMap (fun t => (tagCapture toks t).map (fun n => (t, n))) = [] := by
        have := hsnd
        rw [hc] at this
        exact List.map_eq_nil.mp this
      refine ⟨1, ?_, le_refl 1, ?_, fun _ => rfl, fun hne => absurd hc hne⟩
      · simp [hmt]
      · intro k hk; rw [hc] at hk; exact absurd hk (List.not_mem_nil k)
    · have hmt : tags.filterMap (fun t => (tagCapture toks t).map (fun n => (t, n))) ≠ [] := by
        intro he
        exact hc (by rw [← hsnd, he]; rfl)
      refine ⟨(tags.filterMap (tagCapture toks)).foldr Nat.max 0 + 1, ?_, ?_, ?_, ?_, ?_⟩
      · simp only [List.isEmpty_iff, hmt, if_neg, hsnd]
        simp [hmt]
      · omega
      · intro k hk
        have := le_foldr_max (tags.filterMap (tagCapture toks)) k hk
        omega
      · intro he; exact absurd he hc
      · intro _
        simp only [Nat.add_sub_cancel]
        exact foldr_max_mem _ hc
  · simp +decide [generate_tag_name, substDate, pyReplace, buildTagPattern, parsePattern,
      reMatch, reMatchG, tagCapture, digitsToNat, isMeta]

/-- C1 witness: the next-number property applied to the cited scenario. -/
theorem generate_tag_name_next_number_witness :
    parsePattern (buildTagPattern
        (substDate "YYYYMMDD.N".data "2024".data "24".data "01".data "01".data))
      = some [RTok.lit '2', RTok.lit '0', RTok.lit '2', RTok.lit '4', RTok.lit '0',
          RTok.lit '1', RTok.lit '0', RTok.lit '1', RTok.dot, RTok.group]
    ∧ ∃ n : Nat,
        generate_tag_name "YYYYMMDD.N" "2024" "24" "01" "01" ["20240101.1", "20240101.2"]
          = some (String.mk (pyReplace "N".data (Nat.repr n).data
              (substDate "YYYYMMDD.N".data "2024".data "24".data "01".data "01".data)))
        ∧ 1 ≤ n
        ∧ (∀ k ∈ (["20240101.1", "20240101.2"] : List String).filterMap
            (tagCapture [RTok.lit '2', RTok.lit '0', RTok.lit '2', RTok.lit '4', RTok.lit '0',
              RTok.lit '1', RTok.lit '0', RTok.lit '1', RTok.dot, RTok.group]), k < n)
        ∧ ((["20240101.1", "20240101.2"] : List String).filterMap
            (tagCapture [RTok.lit '2', RTok.lit '0', RTok.lit '2', RTok.lit '4', RTok.lit '0',
              RTok.lit '1', RTok.lit '0', RTok.lit '1', RTok.dot, RTok.group]) = [] → n = 1)
        ∧ ((["20240101.1", "20240101.2"] : List String).filterMap
            (tagCapture [RTok.lit '2', RTok.lit '0', RTok.lit '2', RTok.lit '4', RTok.lit '0',
              RTok.lit '1', RTok.lit '0', RTok.lit '1', RTok.dot, RTok.group]) ≠ [] →
            n - 1 ∈ (["20240101.1", "20240101.2"] : List String).filterMap
              (tagCapture [RTok.lit '2', RTok.lit '0', RTok.lit '2', RTok.lit '4', RTok.lit '0',
                RTok.lit '1', RTok.lit '0', RTok.lit '1', RTok.dot, RTok.group])) := by
  have hp : parsePattern (buildTagPattern
      (substDate "YYYYMMDD.N".data "2024".data "24".data "01".data "01".data))
      = some [RTok.lit '2', RTok.lit '0', RTok.lit '2', RTok.lit '4', RTok.lit '0',
          RTok.lit '1', RTok.lit '0', RTok.lit '1', RTok.dot, RTok.group] := by
    simp +decide [substDate, pyReplace, buildTagPattern, parsePattern, isMeta]
  exact ⟨hp, generate_tag_name_next_number.1 "YYYYMMDD.N" "2024" "24" "01" "01"
    ["20240101.1", "20240101.2"] _ hp⟩

/-- C1 counterexample: for the template `v+N` (exactly one `N`) and the
existing tag set `{v+1}`, the generator returns `v+1`, which is a member
of the existing set — the `+` is not escaped, so `v+1` does not match
the pattern `v+(\d+)` and the sequence number stays 1. -/
theorem generate_tag_name_returns_existing_tag :
    generate_tag_name "v+N" "2024" "24" "01" "01" ["v+1"] = some "v+1"
    ∧ "v+1" ∈ (["v+1"] : List String) := by
  constructor
  · simp +decide [generate_tag_name, substDate, pyReplace, buildTagPattern, parsePattern,
      reMatch, reMatchG, tagCapture, digitsToNat, isMeta]
  · decide

/-- C10: date and sequence placeholders are substituted by plain
whole-string replacement in the fixed order `YYYY`, `YY`, `MM`, `DD`,
`N`, each replacing every occurrence: no `N` survives in the generated
tag (first conjunct, for any base), `YYYY` is consumed before `YY` could
match inside it (second and third), and a template with a second `N`
(`vN.N`) gets the sequence number substituted at both positions. -/
theorem tag_placeholder_substitution_order :
    (∀ r s : Str, 'N' ∉ r → 'N' ∉ pyReplace "N".data r s)
    ∧ substDate "YYYY".data "2024".data "24".data "01".data "01".data = "2024".data
    ∧ substDate "YYYYMMDD.N".data "2024".data "24".data "01".data "01".data
        = "20240101.N".data
    ∧ generate_tag_name "vN.N" "2024" "24" "01" "01" ["v1.7"] = some "v2.2" := by
  refine ⟨?_, by simp +decide [substDate, pyReplace], by simp +decide [substDate, pyReplace],
    by simp +decide [generate_tag_name, substDate, pyReplace, buildTagPattern, parsePattern,
      reMatch, reMatchG, tagCapture, digitsToNat, isMeta]⟩
  intro r s hr
  induction s with
  | nil => simp [pyReplace]
  | cons x xs ih =>
    by_cases hx : x = 'N'
    · subst hx
      rw [pyReplace, dif_pos ⟨by simp, by simp [List.isPrefixOf]⟩]
      intro hmem
      rcases List.mem_append.mp (by simpa using hmem) with h | h
      · exact hr h
      · exact ih h
    · rw [pyReplace_cons_neg (by simp [List.isPrefixOf]; exact fun he => hx he.symm)]
      intro hmem
      rcases List.mem_cons.mp hmem with h | h
      · exact hx h.symm
      · exact ih h

/-- C10 witness: substituting `3` for `N` leaves no `N` behind. -/
theorem tag_placeholder_substitution_order_witness :
    'N' ∉ "3".data ∧ 'N' ∉ pyReplace "N".data "3".data "vN.N".data :=
  ⟨by decide, tag_placeholder_substitution_order.1 "3".data "vN.N".data (by decide)⟩

/-- C4 (amended): the matching regular expression is built by the plain
replacement of `N` with `(\d+)` — no other character is escaped, so
metacharacters keep their regex meaning (the `.` of the default format
matches any character) — and a tag counts as a match when the pattern
matches a prefix of the name: matching is anchored at the start only,
not at the end. -/
theorem tag_pattern_unescaped_anchored :
    buildTagPattern "20240101.N".data = "20240101.(\\d+)".data
    ∧ (∀ (toks : List RTok) (xs ys : Str),
        (reMatch toks xs).isSome = true → (reMatch toks (xs ++ ys)).isSome = true)
    ∧ tagCapture [RTok.lit '2', RTok.lit '0', RTok.lit '2', RTok.lit '4', RTok.lit '0',
          RTok.lit '1', RTok.lit '0', RTok.lit '1', RTok.dot, RTok.group] "20240101x1"
        = some 1
    ∧ tagCapture [RTok.lit '2', RTok.lit '0', RTok.lit '2', RTok.lit '4', RTok.lit '0',
          RTok.lit '1', RTok.lit '0', RTok.lit '1', RTok.dot, RTok.group] "20240101.5extra"
        = some 5 := by
  refine ⟨by simp +decide [buildTagPattern, pyReplace], reMatch_append_isSome, ?_, ?_⟩
  · simp +decide [tagCapture, reMatch, reMatchG, digitsToNat]
  · simp +decide [tagCapture, reMatch, reMatchG, digitsToNat]

/-- C4 witness: prefix-anchoring applied to a concrete match. -/
theorem tag_pattern_unescaped_anchored_witness :
    (reMatch [RTok.group] "1".data).isSome = true
    ∧ (reMatch [RTok.group] ("1".data ++ "x".data)).isSome = true :=
  ⟨by simp +decide [reMatch, reMatchG],
    tag_pattern_unescaped_anchored.2.1 [RTok.group] "1".data "x".data
      (by simp +decide [reMatch, reMatchG])⟩

/-- C4 counterexample: with the default format on 2024-01-01, the
existing tag `20240101x1` — which matches neither literally nor as a
whole name — still matches the code's pattern and drives the sequence
number to 2, while the escaped whole-name rule the claim describes
rejects it. -/
theorem tag_pattern_matches_nonliteral :
    generate_tag_name "YYYYMMDD.N" "2024" "24" "01" "01" ["20240101x1"] = some "20240101.2"
    ∧ specLiteralCapture "20240101.N".data "20240101x1".data = none := by
  constructor
  · simp +decide [generate_tag_name, substDate, pyReplace, buildTagPattern, parsePattern,
      reMatch, reMatchG, tagCapture, digitsToNat, isMeta]
  · decide

/-- Rendering a template of the shape `S1 [PROJECT_NAME] S2 [TAG_NAME]
S3 [TICKETS_LIST]` with bracket-free segments and bracket-free
replacement texts substitutes each placeholder exactly once. -/
theorem pyReplace_self (r : Str) {n : Str} (hn : n ≠ []) : pyReplace n r n = r := by
  have h := pyReplace_append_self (n := n) r [] hn
  rw [List.append_nil] at h
  rw [h, pyReplace_nil, List.append_nil]

theorem render_segments (S1 S2 S3 p t l : Str)
    (h1 : '[' ∉ S1) (h2 : '[' ∉ S2) (h3 : '[' ∉ S3)
    (hp : '[' ∉ p) (ht : '[' ∉ t)
    (hT : occursIn "[PROJECT_NAME]".data
        (S2 ++ ("[TAG_NAME]".data ++ (S3 ++ "[TICKETS_LIST]".data))) = false)
    (hL : occursIn "[TAG_NAME]".data (S3 ++ "[TICKETS_LIST]".data) = false) :
    render_template
        (S1 ++ ("[PROJECT_NAME]".data
          ++ (S2 ++ ("[TAG_NAME]".data ++ (S3 ++ "[TICKETS_LIST]".data))))) p t l
      = S1 ++ (p ++ (S2 ++ (t ++ (S3 ++ l)))) := by
  have hcP : ("[PROJECT_NAME]".data : Str).head? = some '[' := rfl
  have hcT : ("[TAG_NAME]".data : Str).head? = some '[' := rfl
  have hcL : ("[TICKETS_LIST]".data : Str).head? = some '[' := rfl
  rw [render_template]
  rw [pyReplace_append_of_head p hcP S1 _ h1,
    pyReplace_append_self p _ (by decide),
    pyReplace_of_not_occurs hT]
  rw [pyReplace_append_of_head t hcT S1 _ h1,
    pyReplace_append_of_head t hcT p _ hp,
    pyReplace_append_of_head t hcT S2 _ h2,
    pyReplace_append_self t _ (by decide),
    pyReplace_of_not_occurs hL]
  rw [pyReplace_append_of_head l hcL S1 _ h1,
    pyReplace_append_of_head l hcL p _ hp,
    pyReplace_append_of_head l hcL S2 _ h2,
    pyReplace_append_of_head l hcL t _ ht,
    pyReplace_append_of_head l hcL S3 _ h3]
  rw [pyReplace_self l (by decide)]

/-- C8 (amended): for the two built-in templates, when the project name,
tag name and rendered tickets list contain no `[` character (and are
non-empty), the rendered message contains no occurrence of any of the
three placeholder tokens.  (As the counterexample shows, with arbitrary
replacement texts a literal token can survive.) -/
theorem render_default_templates_no_placeholder :
    ∀ p t l : Str, p ≠ [] → t ≠ [] → l ≠ [] → '[' ∉ p → '[' ∉ t → '[' ∉ l →
      (occursIn "[PROJECT_NAME]".data (render_template markdown_template p t l) = false
        ∧ occursIn "[TAG_NAME]".data (render_template markdown_template p t l) = false
        ∧ occursIn "[TICKETS_LIST]".data (render_template markdown_template p t l) = false)
      ∧ (occursIn "[PROJECT_NAME]".data (render_template plain_template p t l) = false
        ∧ occursIn "[TAG_NAME]".data (render_template plain_template p t l) = false
        ∧ occursIn "[TICKETS_LIST]".data (render_template plain_template p t l) = false) := by
  intro p t l _ _ _ hp ht hl
  have hmd : render_template markdown_template p t l
      = "# Deploying ".data
          ++ (p ++ (" `".data ++ (t ++ ("`\n\n## Tickets:\n".data ++ l)))) := by
    have hsplit : markdown_template
        = "# Deploying ".data ++ ("[PROJECT_NAME]".data ++ (" `".data
          ++ ("[TAG_NAME]".data ++ ("`\n\n## Tickets:\n".data ++ "[TICKETS_LIST]".data)))) := by
      decide
    rw [hsplit]
    exact render_segments _ _ _ p t l (by decide) (by decide) (by decide) hp ht
      (by decide) (by decide)
  have hpl : render_template plain_template p t l
      = "Deploying ".data
          ++ (p ++ (" ".data ++ (t ++ ("\n\nTickets:\n".data ++ l)))) := by
    have hsplit : plain_template
        = "Deploying ".data ++ ("[PROJECT_NAME]".data ++ (" ".data
          ++ ("[TAG_NAME]".data ++ ("\n\nTickets:\n".data ++ "[TICKETS_LIST]".data)))) := by
      decide
    rw [hsplit]
    exact render_segments _ _ _ p t l (by decide) (by decide) (by decide) hp ht
      (by decide) (by decide)
  have hmem_md : '[' ∉ "# Deploying ".data
      ++ (p ++ (" `".data ++ (t ++ ("`\n\n## Tickets:\n".data ++ l)))) := by
    intro hmem
    simp only [List.mem_append] at hmem
    rcases hmem with h | h | h | h | h | h
    · exact absurd h (by decide)
    · exact hp h
    · exact absurd h (by decide)
    · exact ht h
    · exact absurd h (by decide)
    · exact hl h
  have hmem_pl : '[' ∉ "Deploying ".data
      ++ (p ++ (" ".data ++ (t ++ ("\n\nTickets:\n".data ++ l)))) := by
    intro hmem
    simp only [List.mem_append] at hmem
    rcases hmem with h | h | h | h | h | h
    · exact absurd h (by decide)
    · exact hp h
    · exact absurd h (by decide)
    · exact ht h
    · exact absurd h (by decide)
    · exact hl h
  refine ⟨⟨?_, ?_, ?_⟩, ?_, ?_, ?_⟩
  · rw [hmd]; exact occursIn_eq_false_of_not_mem (by decide) hmem_md
  · rw [hmd]; exact occursIn_eq_false_of_not_mem (by decide) hmem_md
  · rw [hmd]; exact occursIn_eq_false_of_not_mem (by decide) hmem_md
  · rw [hpl]; exact occursIn_eq_false_of_not_mem (by decide) hmem_pl
  · rw [hpl]; exact occursIn_eq_false_of_not_mem (by decide) hmem_pl
  · rw [hpl]; exact occursIn_eq_false_of_not_mem (by decide) hmem_pl

/-- C8 witness: bracket-free inputs on the default templates. -/
theorem render_default_templates_no_placeholder_witness :
    ("p".data ≠ ([] : Str) ∧ "v1".data ≠ ([] : Str) ∧ "- A".data ≠ ([] : Str)
      ∧ '[' ∉ "p".data ∧ '[' ∉ "v1".data ∧ '[' ∉ "- A".data)
    ∧ occursIn "[PROJECT_NAME]".data
        (render_template markdown_template "p".data "v1".data "- A".data) = false :=
  ⟨⟨by decide, by decide, by decide, by decide, by decide, by decide⟩,
    ((render_default_templates_no_placeholder "p".data "v1".data "- A".data
      (by decide) (by decide) (by decide) (by decide) (by decide) (by decide)).1).1⟩

/-- C8 counterexample: with template `[TAG_NAME]` and the non-empty tag
name `[PROJECT_NAME]`, the rendered output is the literal token
`[PROJECT_NAME]` — the tag is substituted after the project name, so a
token it contains is never replaced. -/
theorem render_can_leave_placeholder :
    render_template "[TAG_NAME]".data "p".data "[PROJECT_NAME]".data "t".data
      = "[PROJECT_NAME]".data
    ∧ occursIn "[PROJECT_NAME]".data
        (render_template "[TAG_NAME]".data "p".data "[PROJECT_NAME]".data "t".data) = true
    ∧ "p".data ≠ ([] : Str) ∧ "[PROJECT_NAME]".data ≠ ([] : Str) ∧ "t".data ≠ ([] : Str) := by
  refine ⟨?_, ?_, by decide, by decide, by decide⟩ <;>
    simp +decide [render_template, pyReplace, occursIn]

theorem mergeConnEntry_lookup_other (acc : List (String × Val)) (kv : String × Val)
    {x : String} (hx : x ≠ kv.1) :
    assocLookup (mergeConnEntry acc kv) x = assocLookup acc x := by
  rw [mergeConnEntry]
  split
  · split
    all_goals first | exact assocLookup_assocSet_ne acc _ hx | rfl
  · rfl

theorem mergeConnEntry_lookup_none (acc : List (String × Val)) (kv : String × Val)
    {x : String} (hx : assocLookup acc x = none) :
    assocLookup (mergeConnEntry acc kv) x = none := by
  by_cases he : x = kv.1
  · subst he
    rw [mergeConnEntry]
    split
    · rename_i hcond
      rw [hx] at hcond
      simp at hcond
    · exact hx
  · rw [mergeConnEntry_lookup_other acc kv he]
    exact hx

theorem foldl_mergeConn_type : ∀ (lc : List (String × Val)) (acc : List (String × Val)),
    assocLookup (lc.foldl mergeConnEntry acc) "type" = assocLookup acc "type" := by
  intro lc
  induction lc with
  | nil => intro acc; rfl
  | cons kv rest ih =>
    intro acc
    rw [List.foldl_cons, ih]
    by_cases he : kv.1 = "type"
    · rw [mergeConnEntry]
      rw [if_neg (by simp [he])]
    · exact mergeConnEntry_lookup_other acc kv (fun h => he h.symm)

theorem foldl_mergeConn_notmem : ∀ (lc : List (String × Val)) (acc : List (String × Val))
    (x : String), x ∉ lc.map Prod.fst →
    assocLookup (lc.foldl mergeConnEntry acc) x = assocLookup acc x := by
  intro lc
  induction lc with
  | nil => intro acc x _; rfl
  | cons kv rest ih =>
    intro acc x hx
    simp only [List.map_cons, List.mem_cons, not_or] at hx
    rw [List.foldl_cons, ih _ _ hx.2, mergeConnEntry_lookup_other acc kv hx.1]

theorem foldl_mergeConn_none : ∀ (lc : List (String × Val)) (acc : List (String × Val))
    (x : String), assocLookup acc x = none →
    assocLookup (lc.foldl mergeConnEntry acc) x = none := by
  intro lc
  induction lc with
  | nil => intro acc x h; exact h
  | cons kv rest ih =>
    intro acc x h
    rw [List.foldl_cons]
    exact ih _ _ (mergeConnEntry_lookup_none acc kv h)

theorem foldl_mergeConn_mem : ∀ (lc : List (String × Val)) (acc : List (String × Val))
    (name : String) (gsub lsub : List (String × Val)),
    (lc.map Prod.fst).Nodup → name ≠ "type" →
    (name, Val.vmap lsub) ∈ lc → assocLookup acc name = some (Val.vmap gsub) →
    assocLookup (lc.foldl mergeConnEntry acc) name
      = some (Val.vmap (dictUpdate gsub lsub)) := by
  intro lc
  induction lc with
  | nil => intro acc name gsub lsub _ _ hmem _; exact absurd hmem (List.not_mem_nil _)
  | cons kv rest ih =>
    intro acc name gsub lsub hnd hnt hmem hacc
    simp only [List.map_cons, List.nodup_cons] at hnd
    rcases List.mem_cons.mp hmem with he | hr
    · subst he
      rw [List.foldl_cons]
      have hstep : mergeConnEntry acc (name, Val.vmap lsub)
          = assocSet acc name (Val.vmap (dictUpdate gsub lsub)) := by
        rw [mergeConnEntry]
        rw [if_pos ⟨hnt, by rw [hacc]; rfl⟩]
        simp only [hacc]
      rw [hstep, foldl_mergeConn_notmem rest _ name hnd.1,
        assocLookup_assocSet_self]
    · have hne : name ≠ kv.1 := by
        intro he
        exact hnd.1 (he ▸ (List.mem_map.mpr ⟨(name, Val.vmap lsub), hr, rfl⟩))
      rw [List.foldl_cons]
      exact ih _ name gsub lsub hnd.2 hnt hr
        (by rw [mergeConnEntry_lookup_other acc kv hne]; exact hacc)

theorem mergeTopEntry_lookup_other (acc : List (String × Val)) (kv : String × Val)
    {x : String} (hx : x ≠ kv.1) :
    assocLookup (mergeTopEntry acc kv) x = assocLookup acc x := by
  rw [mergeTopEntry]
  split
  · exact assocLookup_assocSet_ne acc _ hx
  · rfl

theorem foldl_mergeTop_connectors : ∀ (l : List (String × Val)) (acc : List (String × Val)),
    assocLookup (l.foldl mergeTopEntry acc) "connectors" = assocLookup acc "connectors" := by
  intro l
  induction l with
  | nil => intro acc; rfl
  | cons kv rest ih =>
    intro acc
    rw [List.foldl_cons, ih]
    by_cases he : kv.1 = "connectors"
    · rw [mergeTopEntry, if_neg (by simp [he])]
    · exact mergeTopEntry_lookup_other acc kv (fun h => he h.symm)

theorem foldl_mergeTop_notmem : ∀ (l : List (String × Val)) (acc : List (String × Val))
    (x : String), x ∉ l.map Prod.fst →
    assocLookup (l.foldl mergeTopEntry acc) x = assocLookup acc x := by
  intro l
  induction l with
  | nil => intro acc x _; rfl
  | cons kv rest ih =>
    intro acc x hx
    simp only [List.map_cons, List.mem_cons, not_or] at hx
    rw [List.foldl_cons, ih _ _ hx.2, mergeTopEntry_lookup_other acc kv hx.1]

theorem foldl_mergeTop_mem : ∀ (l : List (String × Val)) (acc : List (String × Val))
    (k : String) (v : Val), (l.map Prod.fst).Nodup → k ≠ "connectors" →
    (k, v) ∈ l →
    assocLookup (l.foldl mergeTopEntry acc) k = some v := by
  intro l
  induction l with
  | nil => intro acc k v _ _ hmem; exact absurd hmem (List.not_mem_nil _)
  | cons kv rest ih =>
    intro acc k v hnd hkc hmem
    simp only [List.map_cons, List.nodup_cons] at hnd
    rcases List.mem_cons.mp hmem with he | hr
    · subst he
      rw [List.foldl_cons]
      have hstep : mergeTopEntry acc (k, v) = assocSet acc k v := by
        rw [mergeTopEntry, if_pos hkc]
      rw [hstep, foldl_mergeTop_notmem rest _ k hnd.1, assocLookup_assocSet_self]
    · rw [List.foldl_cons]
      exact ih _ k v hnd.2 hkc hr

/-- C6 (amended): the merged configuration takes each top-level key of
local over global except `connectors`; inside `connectors`, the local
`type` selector wins only when it is truthy (a present but null/empty
local `type` keeps the global selector); each named connector present in
both sides has the local sub-settings keys overlaid onto the global ones
(shallow merge); a named connector present only locally is dropped. -/
theorem merge_local_config_rules :
    ∀ (config local_config gc lc : List (String × Val)),
      assocLookup config "connectors" = some (Val.vmap gc) →
      assocLookup local_config "connectors" = some (Val.vmap lc) →
      (local_config.map Prod.fst).Nodup →
      (lc.map Prod.fst).Nodup →
      (∀ k v, k ≠ "connectors" → (k, v) ∈ local_config →
        assocLookup (merge_local_config config local_config) k = some v)
      ∧ (∀ k, k ≠ "connectors" → k ∉ local_config.map Prod.fst →
        assocLookup (merge_local_config config local_config) k = assocLookup config k)
      ∧ assocLookup (merge_local_config config local_config) "connectors"
          = some (Val.vmap (mergeConnectors gc lc))
      ∧ (assocLookup (mergeConnectors gc lc) "type"
          = match assocLookup lc "type" with
            | some tv => if truthy tv = true then some tv else assocLookup gc "type"
            | none => assocLookup gc "type")
      ∧ (∀ name gsub lsub, name ≠ "type" →
          (name, Val.vmap lsub) ∈ lc → assocLookup gc name = some (Val.vmap gsub) →
          assocLookup (mergeConnectors gc lc) name
            = some (Val.vmap (dictUpdate gsub lsub)))
      ∧ (∀ name, name ≠ "type" → assocLookup gc name = none →
          assocLookup (mergeConnectors gc lc) name = none) := by
  intro config local_config gc lc hg hl hndl hndlc
  have hconfig1 : merge_local_config config local_config
      = local_config.foldl mergeTopEntry
          (assocSet config "connectors" (Val.vmap (mergeConnectors gc lc))) := by
    rw [merge_local_config, hl, hg]
  have hpass : ∀ name : String, name ≠ "type" →
      assocLookup (mergeConnType gc lc) name = assocLookup gc name := by
    intro name hnt
    cases htv : assocLookup lc "type" with
    | none => simp only [mergeConnType, htv]
    | some tv =>
      simp only [mergeConnType, htv]
      by_cases htr : truthy tv = true
      · rw [if_pos htr]
        exact assocLookup_assocSet_ne gc _ hnt
      · rw [if_neg htr]
  have hgc1type : ∀ tv, assocLookup lc "type" = some tv →
      assocLookup (mergeConnectors gc lc) "type"
        = if truthy tv = true then some tv else assocLookup gc "type" := by
    intro tv htv
    rw [mergeConnectors, foldl_mergeConn_type]
    simp only [mergeConnType, htv]
    by_cases htr : truthy tv = true
    · rw [if_pos htr, if_pos htr, assocLookup_assocSet_self]
    · rw [if_neg htr, if_neg htr]
  refine ⟨?_, ?_, ?_, ?_, ?_, ?_⟩
  · intro k v hk hmem
    rw [hconfig1]
    exact foldl_mergeTop_mem local_config _ k v hndl hk hmem
  · intro k hk hmem
    rw [hconfig1, foldl_mergeTop_notmem local_config _ k hmem,
      assocLookup_assocSet_ne config _ hk]
  · rw [hconfig1, foldl_mergeTop_connectors, assocLookup_assocSet_self]
  · cases htv : assocLookup lc "type" with
    | none =>
      rw [mergeConnectors, foldl_mergeConn_type]
      simp only [mergeConnType, htv]
    | some tv =>
      simp only [htv]
      exact hgc1type tv htv
  · intro name gsub lsub hnt hmem hgname
    rw [mergeConnectors]
    apply foldl_mergeConn_mem lc _ name gsub lsub hndlc hnt hmem
    rw [hpass name hnt]
    exact hgname
  · intro name hnt hgname
    rw [mergeConnectors]
    apply foldl_mergeConn_none
    rw [hpass name hnt]
    exact hgname

/-- C6 witness: a local `project_name` overrides the global one through
the merge. -/
theorem merge_local_config_rules_witness :
    assocLookup (merge_local_config
        [("connectors", Val.vmap [("type", Val.vstr "jira"),
            ("jira", Val.vmap [("api_url", Val.vstr "u")])]),
          ("project_name", Val.vnull)]
        [("project_name", Val.vstr "p"),
          ("connectors", Val.vmap [("jira", Val.vmap [("api_key", Val.vstr "k")])])])
      "project_name" = some (Val.vstr "p") :=
  (merge_local_config_rules
      [("connectors", Val.vmap [("type", Val.vstr "jira"),
          ("jira", Val.vmap [("api_url", Val.vstr "u")])]), ("project_name", Val.vnull)]
      [("project_name", Val.vstr "p"),
        ("connectors", Val.vmap [("jira", Val.vmap [("api_key", Val.vstr "k")])])]
      [("type", Val.vstr "jira"), ("jira", Val.vmap [("api_url", Val.vstr "u")])]
      [("jira", Val.vmap [("api_key", Val.vstr "k")])]
      rfl rfl (by decide) (by decide)).1 "project_name"
    (Val.vstr "p") (by decide) (List.mem_cons_self _ _)

/-- C6 counterexample: a local connectors `type` that is present but
null does not win — the global selector is kept, because the code tests
the local selector for truthiness, not presence. -/
theorem merge_local_config_null_type_kept :
    assocLookup [("connectors", Val.vmap [("type", Val.vnull)])] "connectors"
      = some (Val.vmap [("type", Val.vnull)])
    ∧ merge_local_config [("connectors", Val.vmap [("type", Val.vstr "jira")])]
        [("connectors", Val.vmap [("type", Val.vnull)])]
      = [("connectors", Val.vmap [("type", Val.vstr "jira")])] :=
  ⟨rfl, rfl⟩

end GitReleaseHelper
